import Mathlib

/-!
Verification of the sprite tooling (sprite2c.py, spritedata2png.py,
generate_placeholders.py): the RGB565 color codec, the raster-to-frame
conversion, the spritesheet batch driver, and the textual array parser.

Modelling conventions: Python integers are embedded as `Nat` (all the
values involved are non-negative); Python bitwise operators map to
`Nat.shiftLeft`, `Nat.shiftRight`, `Nat.lor`, `Nat.land`; text is embedded
as `List Char` restricted to ASCII, matching the generated headers the
tools operate on; fallible paths (`sys.exit`) are embedded as `Except`.
-/

namespace SpriteTools

/-- `TRANSPARENT_RGB565 = 0xF81F`, the reserved transparent sentinel
(magenta in RGB565), shared by all three scripts. -/
def TRANSPARENT_RGB565 : Nat := 0xF81F

/-- `rgb_to_rgb565` from sprite2c.py:
`((r >> 3) << 11) | ((g >> 2) << 5) | (b >> 3)`.
The Python function performs no range validation and cannot fail, so it is
embedded as a total function. -/
def rgb_to_rgb565 (r g b : Nat) : Nat :=
  (((r >>> 3) <<< 11) ||| ((g >>> 2) <<< 5)) ||| (b >>> 3)

/-- `rgb565` from generate_placeholders.py: the same quantization, but a
result equal to the transparent sentinel is replaced by `0xF81E`. -/
def rgb565 (r g b : Nat) : Nat :=
  let val := rgb_to_rgb565 r g b
  if val = TRANSPARENT_RGB565 then 0xF81E else val

/-- `rgb565_to_rgb` from spritedata2png.py: extract the 5/6/5 fields,
shift them up, then replicate the high bits into the truncated low bits
(`r |= r >> 5` etc.). -/
def rgb565_to_rgb (val : Nat) : Nat × Nat × Nat :=
  let r := ((val >>> 11) &&& 0x1F) <<< 3
  let g := ((val >>> 5) &&& 0x3F) <<< 2
  let b := (val &&& 0x1F) <<< 3
  (r ||| (r >>> 5), g ||| (g >>> 6), b ||| (b >>> 5))

/-- The Python truthiness test `transparent_color and (r, g, b) ==
transparent_color` from convert_sprite: false when no color key is
supplied (None), exact tuple equality otherwise (any 3-tuple is truthy). -/
def keyMatches (transparent_color : Option (Nat × Nat × Nat))
    (rgb : Nat × Nat × Nat) : Bool :=
  match transparent_color with
  | some c => rgb = c
  | none => false

/-- The per-pixel body of convert_sprite (sprite2c.py lines 122-133):
color-key test, then the alpha threshold, then RGB565 encoding with the
accidental-transparency avoidance. -/
def pixelTo565 (transparent_color : Option (Nat × Nat × Nat))
    (px : Nat × Nat × Nat × Nat) : Nat :=
  match px with
  | (r, g, b, a) =>
    if keyMatches transparent_color (r, g, b) then TRANSPARENT_RGB565
    else if a < 128 then TRANSPARENT_RGB565
    else if rgb_to_rgb565 r g b = TRANSPARENT_RGB565 then 0xF81E
    else rgb_to_rgb565 r g b

/-- A raster image after `convert("RGBA")`: a size and a pixel function;
`pixel x y` models `img.getpixel((x, y))`. -/
structure Image where
  width : Nat
  height : Nat
  pixel : Nat → Nat → Nat × Nat × Nat × Nat

/-- The failure of convert_sprite: the `sys.exit(1)` taken when the image
is smaller than one frame cell (`cols == 0 or rows == 0`). -/
inductive ConvError where
  | emptySheet
  deriving DecidableEq

/-- convert_sprite (sprite2c.py lines 91-136): partition the image into
`rows x cols` frames of size `frame_width x frame_height`, converting each
pixel; `cols` defaults to `imageWidth // frame_width` when not supplied.
Lean division by zero yields 0 (then the emptySheet branch is taken),
whereas Python raises ZeroDivisionError; every caller passes positive
frame sizes. -/
def convert_sprite (img : Image) (frame_width frame_height : Nat)
    (transparent_color : Option (Nat × Nat × Nat)) (colsOpt : Option Nat) :
    Except ConvError (List (List Nat)) :=
  let max_cols := img.width / frame_width
  let cols := colsOpt.getD max_cols
  let rows := img.height / frame_height
  if cols = 0 ∨ rows = 0 then .error .emptySheet
  else .ok ((List.range rows).flatMap fun row =>
    (List.range cols).map fun col =>
      (List.range frame_height).flatMap fun y =>
        (List.range frame_width).map fun x =>
          pixelTo565 transparent_color
            (img.pixel (col * frame_width + x) (row * frame_height + y)))

/-- The `(x, y)` getpixel coordinates read by convert_sprite, in loop
order (row, col, y, x). -/
def accessedCoords (imgW imgH frame_width frame_height : Nat)
    (colsOpt : Option Nat) : List (Nat × Nat) :=
  let cols := colsOpt.getD (imgW / frame_width)
  let rows := imgH / frame_height
  (List.range rows).flatMap fun row =>
    (List.range cols).flatMap fun col =>
      (List.range frame_height).flatMap fun y =>
        (List.range frame_width).map fun x =>
          (col * frame_width + x, row * frame_height + y)

/-- SPRITE_NAMES from sprite2c.py: the SpriteId enumeration order. -/
def SPRITE_NAMES : List String :=
  ["egg_idle", "baby_idle", "teen_idle", "adult_idle", "elder_idle",
   "ghost", "sick", "happy", "sad", "eating", "playing", "sleeping"]

/-- The per-sprite loop of generate_spritedata (sprite2c.py lines
224-236), reduced to the frame counts it records: a missing PNG is
skipped (count 0, batch continues); a present image is converted, and the
`sys.exit(1)` inside convert_sprite kills the whole run, modelled as
error propagation that discards every other result. -/
def spritedataCounts (fs : String → Option Image)
    (frame_width frame_height : Nat)
    (transparent_color : Option (Nat × Nat × Nat)) :
    List String → Except ConvError (List (String × Nat))
  | [] => .ok []
  | name :: rest =>
    match fs name with
    | none =>
      (spritedataCounts fs frame_width frame_height transparent_color rest).map
        (fun tl => (name, 0) :: tl)
    | some img =>
      match convert_sprite img frame_width frame_height transparent_color none with
      | .error e => .error e
      | .ok frames =>
        (spritedataCounts fs frame_width frame_height transparent_color rest).map
          (fun tl => (name, frames.length) :: tl)

/-- One emitted row of the `animatedSprites` master table. -/
inductive TableRow where
  | missing (name : String)
  | entry (name : String) (count delayMs : Nat) (loopFlag : Bool)
  deriving DecidableEq

def rowName : TableRow → String
  | .missing n => n
  | .entry n _ _ _ => n

def rowIsMissing : TableRow → Bool
  | .missing _ => true
  | .entry _ _ _ _ => false

/-- The animatedSprites table loop of generate_spritedata (sprite2c.py
lines 256-267): one row per SPRITE_NAMES entry in enumeration order; a
zero frame count emits the explicit placeholder
row of nullptr, 0, 0, false. `animConfig` models the config lookup
`anim_config.get(name, (500, True))` as a total function. -/
def masterTable (counts : String → Nat) (animConfig : String → Nat × Bool) :
    List TableRow :=
  SPRITE_NAMES.map fun name =>
    if counts name = 0 then .missing name
    else .entry name (counts name) (animConfig name).1 (animConfig name).2

/-- Opening brace character (written by code point to keep brace
characters out of the literals). -/
def lbrace : Char := Char.ofNat 123

/-- Closing brace character. -/
def rbrace : Char := Char.ofNat 125

/-- The regex class \s restricted to ASCII (the generated headers are
ASCII text): Python string whitespace. -/
def isPySpace (c : Char) : Bool :=
  c == ' ' || c == '\t' || c == '\n' || c == '\r' || c == '\x0B' || c == '\x0C'

/-- The regex class \w restricted to ASCII: letters, digits, underscore. -/
def isWordChar (c : Char) : Bool :=
  c.isAlphanum || c == '_'

/-- The regex class [0-9A-Fa-f]. -/
def isHexDigit (c : Char) : Bool :=
  c.isDigit || (decide (97 ≤ c.toNat) && decide (c.toNat ≤ 102)) ||
    (decide (65 ≤ c.toNat) && decide (c.toNat ≤ 70))

/-- Value of one hexadecimal digit character, as in int(s, 16). -/
def hexVal (c : Char) : Nat :=
  if c.isDigit then c.toNat - 48
  else if decide (97 ≤ c.toNat) then c.toNat - 87
  else c.toNat - 55

/-- int(s, 16) on a string of hexadecimal digit characters. -/
def hexToNat (ds : List Char) : Nat :=
  ds.foldl (fun acc c => 16 * acc + hexVal c) 0

/-- int(s) on a string of decimal digit characters. -/
def decToNat (ds : List Char) : Nat :=
  ds.foldl (fun acc c => 10 * acc + (c.toNat - 48)) 0

/-- The value-extraction scan of parse_sprite_arrays (spritedata2png.py
lines 65-70): re.finditer of 0x([0-9A-Fa-f]+) over the array body. At
each position the pattern is tried; on success the scan resumes after the
match, on failure it advances one character. Only 0x-prefixed literals
produce values. `fuel` bounds the number of positions examined; the
wrapper passes the text length, which always suffices. -/
def scanHexF : Nat → List Char → List Nat
  | 0, _ => []
  | _ + 1, [] => []
  | f + 1, c :: rest =>
    if c = '0' ∧ rest.head? = some 'x' ∧ rest.tail.takeWhile isHexDigit ≠ []
    then hexToNat (rest.tail.takeWhile isHexDigit) ::
      scanHexF f (rest.tail.dropWhile isHexDigit)
    else scanHexF f rest

/-- The hexadecimal-literal values of a body text, in order. -/
def scanHex (cs : List Char) : List Nat := scanHexF cs.length cs

/-- Consume an exact literal prefix (one regex literal). -/
def eatLit : List Char → List Char → Option (List Char)
  | [], cs => some cs
  | _ :: _, [] => none
  | l :: ls, c :: cs => if c = l then eatLit ls cs else none

/-- Consume the regex \s+ (at least one whitespace, then maximal). -/
def eatSpace1 : List Char → Option (List Char)
  | [] => none
  | c :: rest =>
    if isPySpace c then some (rest.dropWhile isPySpace) else none

/-- The tail of the declaration regex after the literal `sprite_`:
the rest of the captured \w+ name, then \s*\[\d+\]\s*=\s*, the
brace-delimited body ([^ close-brace ]+) and the closing \s*;.
Each quantified piece is deterministic maximal munch (no backtracking can
succeed because each following literal is excluded from the preceding
class). -/
def matchDeclAfterName (cs5 : List Char) :
    Option ((List Char × List Char) × List Char) :=
  let ws := cs5.takeWhile isWordChar
  if ws = [] then none else
  (eatLit ['['] ((cs5.dropWhile isWordChar).dropWhile isPySpace)).bind fun cs7 =>
  if cs7.takeWhile Char.isDigit = [] then none else
  (eatLit [']'] (cs7.dropWhile Char.isDigit)).bind fun cs9 =>
  (eatLit ['='] (cs9.dropWhile isPySpace)).bind fun cs11 =>
  (eatLit [lbrace] (cs11.dropWhile isPySpace)).bind fun cs13 =>
  let body := cs13.takeWhile (· != rbrace)
  if body = [] then none else
  (eatLit [rbrace] (cs13.dropWhile (· != rbrace))).bind fun cs15 =>
  (eatLit [';'] (cs15.dropWhile isPySpace)).bind fun cs17 =>
  some (("sprite_".data ++ ws, body), cs17)

/-- Try the declaration regex of parse_sprite_arrays at the current
position: constexpr\s+uint16_t\s+(sprite_\w+)\s*\[\d+\]\s*=\s* then an
open brace, the body, the close brace, \s*;. Returns the captured name,
raw body and the remaining text. -/
def matchDecl (cs : List Char) : Option ((List Char × List Char) × List Char) :=
  (eatLit "constexpr".data cs).bind fun cs1 =>
  (eatSpace1 cs1).bind fun cs2 =>
  (eatLit "uint16_t".data cs2).bind fun cs3 =>
  (eatSpace1 cs3).bind fun cs4 =>
  (eatLit "sprite_".data cs4).bind fun cs5 =>
  matchDeclAfterName cs5

/-- dict insertion: an existing key is overwritten in place, a new key is
appended, preserving insertion order. -/
def dictInsert (l : List (String × List Nat)) (k : String) (v : List Nat) :
    List (String × List Nat) :=
  match l with
  | [] => [(k, v)]
  | (k2, v2) :: t => if k2 = k then (k, v) :: t else (k2, v2) :: dictInsert t k v

/-- The finditer loop of parse_sprite_arrays: slide over the text, trying
the declaration pattern at each position; a match is recorded
(arrays[name] = values) and the scan resumes after it. `fuel` bounds the
positions examined; the text length always suffices. -/
def extractGoF : Nat → List Char → List (String × List Nat) →
    List (String × List Nat)
  | 0, _, acc => acc
  | _ + 1, [], acc => acc
  | f + 1, c :: rest, acc =>
    match matchDecl (c :: rest) with
    | some ((nameChars, body), rem) =>
      extractGoF f rem (dictInsert acc (String.mk nameChars) (scanHex body))
    | none => extractGoF f rest acc

/-- parse_sprite_arrays (spritedata2png.py lines 53-73), as the ordered
association list it builds. -/
def extract_arrays (text : String) : List (String × List Nat) :=
  extractGoF text.data.length text.data []

/-- The regex match of group_frames (spritedata2png.py line 86):
sprite_(.+)_frame(d+) anchored at both ends, with the Python semantics
that the end anchor also matches just before one trailing newline, dot
not matching newline, and the sprite-name group greedy. Greediness is
resolved deterministically: a digit suffix preceded by the literal _frame
is unique because _frame ends in a non-digit. -/
def parseFrameName (name : String) : Option (String × Nat) :=
  let cs0 := name.data
  let cs := if cs0.getLast? = some '\n' then cs0.dropLast else cs0
  let ds := (cs.reverse.takeWhile Char.isDigit).reverse
  let rest := (cs.reverse.dropWhile Char.isDigit).reverse
  if ds = [] then none
  else if rest.drop (rest.length - 6) ≠ "_frame".data then none
  else
    let core := rest.take (rest.length - 6)
    if core.take 7 ≠ "sprite_".data then none
    else
      let m := core.drop 7
      if m = [] then none
      else if m.any (· == '\n') then none
      else some (String.mk m, decToNat ds)

/-- One frame-slot list during grouping: None is the explicit absent
marker. -/
abbrev Slots := List (Option (List Nat))

/-- The while-loop padding of group_frames: grow the list with None until
index idx is addressable. -/
def growTo (l : Slots) (idx : Nat) : Slots :=
  l ++ List.replicate (idx + 1 - l.length) none

/-- Ordered-dict lookup on the grouping state. -/
def lookupG : List (String × Slots) → String → Option Slots
  | [], _ => none
  | (k, v) :: t, s => if k = s then some v else lookupG t s

/-- Ordered-dict update on the grouping state: overwrite in place or
append a new key at the end. -/
def setG : List (String × Slots) → String → Slots → List (String × Slots)
  | [], s, v => [(s, v)]
  | (k, w) :: t, s, v => if k = s then (k, v) :: t else (k, w) :: setG t s v

/-- One iteration of the group_frames loop body for a matching array:
default the sprite entry to [], pad with None up to the frame index, then
assign the pixel data at that index. -/
def insertFrame (st : List (String × Slots)) (s : String) (idx : Nat)
    (v : List Nat) : List (String × Slots) :=
  let cur := (lookupG st s).getD []
  setG st s ((growTo cur idx).set idx (some v))

/-- The main loop of group_frames (spritedata2png.py lines 88-101). -/
def groupFramesAux : List (String × List Nat) → List (String × Slots) →
    List (String × Slots)
  | [], st => st
  | (n, v) :: rest, st =>
    match parseFrameName n with
    | none => groupFramesAux rest st
    | some (s, i) => groupFramesAux rest (insertFrame st s i v)

/-- group_frames (spritedata2png.py lines 76-107): group arrays by sprite
name and frame index, then drop the remaining None gaps in place. -/
def group_frames (arrays : List (String × List Nat)) :
    List (String × List (List Nat)) :=
  (groupFramesAux arrays []).map fun e => (e.1, e.2.filterMap id)

/-- The (frameIndex, pixels) pairs of the arrays that parse to sprite s,
in input order. -/
def entriesFor (arrays : List (String × List Nat)) (s : String) :
    List (Nat × List Nat) :=
  arrays.filterMap fun a =>
    match parseFrameName a.1 with
    | some si => if si.1 = s then some (si.2, a.2) else none
    | none => none

/-- Replay of the slot updates for one sprite, in entry order. -/
def applyEntries : List (Nat × List Nat) → Slots → Slots
  | [], sl => sl
  | (i, v) :: rest, sl => applyEntries rest ((growTo sl i).set i (some v))

/-- Final slot-list length for one sprite: the running maximum of
frameIndex + 1. -/
def slotCount (entries : List (Nat × List Nat)) : Nat :=
  entries.foldl (fun m e => max m (e.1 + 1)) 0

/-- One digit character: 0-9 then uppercase A-F, as the %X and str()
formats produce. -/
def hexDigitChar (d : Nat) : Char :=
  if d < 10 then Char.ofNat (48 + d) else Char.ofNat (55 + d)

/-- Uppercase hexadecimal digits of v, most significant first (the %X
format); fuel-bounded recursion on v / 16, v + 1 always suffices. -/
def toHexF : Nat → Nat → List Char
  | 0, _ => []
  | f + 1, v =>
    if v < 16 then [hexDigitChar v]
    else toHexF f (v / 16) ++ [hexDigitChar (v % 16)]

/-- Uppercase hexadecimal rendering of v (at least one digit). -/
def toHexUpper (v : Nat) : List Char := toHexF (v + 1) v

/-- The %04X format of sprite2c.py format_array: hexadecimal, zero-padded
on the left to at least four digits. -/
def format04X (v : Nat) : List Char :=
  List.replicate (4 - (toHexUpper v).length) '0' ++ toHexUpper v

/-- One rendered literal 0x%04X. -/
def hexLit (v : Nat) : List Char := '0' :: 'x' :: format04X v

/-- Decimal digits of v, most significant first (str(v)). -/
def toDecF : Nat → Nat → List Char
  | 0, _ => []
  | f + 1, v =>
    if v < 10 then [hexDigitChar v]
    else toDecF f (v / 10) ++ [hexDigitChar (v % 10)]

/-- Decimal rendering of v (at least one digit). -/
def toDec (v : Nat) : List Char := toDecF (v + 1) v

/-- The separator-joined row text of format_array line 146:
", ".join of the 0x%04X literals. -/
def hexRow : List Nat → List Char
  | [] => []
  | [v] => hexLit v
  | v :: rest => hexLit v ++ ',' :: ' ' :: hexRow rest

/-- Row chunking of format_array lines 144-145: data split into
consecutive runs of length width (Python range stepping). Fuel-bounded;
the data length suffices whenever width is positive (Python raises on a
zero step). -/
def chunksF : Nat → Nat → List Nat → List (List Nat)
  | 0, _, _ => []
  | _ + 1, _, [] => []
  | f + 1, w, l => l.take w :: chunksF f w (l.drop w)

/-- The rows of one frame array. -/
def chunks (w : Nat) (l : List Nat) : List (List Nat) := chunksF l.length w l

/-- The per-row lines of format_array: a newline, four spaces of indent,
the joined hex literals and a trailing comma, for each row. -/
def rowLines : List (List Nat) → List Char
  | [] => []
  | ch :: rest =>
    '\n' :: ' ' :: ' ' :: ' ' :: ' ' :: (hexRow ch ++ ',' :: rowLines rest)

/-- format_array from sprite2c.py (lines 139-150): the complete rendered
declaration text for one frame, newline-joined exactly as the source
builds it. -/
def format_array (name : String) (frame_idx : Nat) (data : List Nat)
    (width : Nat) : String :=
  String.mk ("constexpr uint16_t sprite_".data ++ (name.data ++
    ("_frame".data ++ (toDec frame_idx ++ ('[' :: (toDec data.length ++
      ("] = ".data ++ lbrace :: (rowLines (chunks width data) ++
        '\n' :: rbrace :: [';']))))))))

/-- An extracted-array mapping with a frame gap: indices 0 and 2 are
present for sprite a, index 1 is absent, in reverse textual order. -/
def demoArrays : List (String × List Nat) :=
  [("sprite_a_frame2", [1]), ("sprite_a_frame0", [2])]

/-- A 1x2 image, smaller than one 2x2 frame cell. -/
def tinyImage : Image := ⟨1, 2, fun _ _ => (0, 0, 0, 255)⟩

/-- A full 2x2 image of one opaque color. -/
def goodImage : Image := ⟨2, 2, fun _ _ => (10, 20, 30, 255)⟩

/-- A sprite directory with a too-small egg_idle.png, a valid
baby_idle.png and every other PNG missing. -/
def demoFs : String → Option Image := fun n =>
  if n = "egg_idle" then some tinyImage
  else if n = "baby_idle" then some goodImage
  else none

theorem mul_pow_lor_eq_add (c : Nat) {b : Nat} (i : Nat) (hb : b < 2 ^ i) :
    (c * 2 ^ i) ||| b = c * 2 ^ i + b := by
  rw [Nat.mul_comm c (2 ^ i), ← Nat.mul_add_lt_is_or hb]

theorem rgb_to_rgb565_eq (r g b : Nat) (hg : g ≤ 255) (hb : b ≤ 255) :
    rgb_to_rgb565 r g b = r / 8 * 2048 + (g / 4 * 32 + b / 8) := by
  have p2 : (2 : Nat) ^ 2 = 4 := by norm_num
  have p3 : (2 : Nat) ^ 3 = 8 := by norm_num
  have p5 : (2 : Nat) ^ 5 = 32 := by norm_num
  have p11 : (2 : Nat) ^ 11 = 2048 := by norm_num
  unfold rgb_to_rgb565
  rw [Nat.lor_assoc, Nat.shiftLeft_eq, Nat.shiftLeft_eq,
    Nat.shiftRight_eq_div_pow, Nat.shiftRight_eq_div_pow,
    Nat.shiftRight_eq_div_pow, p2, p3]
  rw [mul_pow_lor_eq_add (g / 4) 5 (by rw [p5]; omega)]
  rw [mul_pow_lor_eq_add (r / 8) 11 (by rw [p11, p5]; omega)]
  rw [p5, p11]

theorem rgb565_to_rgb_decompose (x y z : Nat) (hx : x < 32) (hy : y < 64)
    (hz : z < 32) :
    rgb565_to_rgb (x * 2048 + (y * 32 + z)) =
      (x * 8 + x / 4, y * 4 + y / 16, z * 8 + z / 4) := by
  have p2 : (2 : Nat) ^ 2 = 4 := by norm_num
  have p3 : (2 : Nat) ^ 3 = 8 := by norm_num
  have p5 : (2 : Nat) ^ 5 = 32 := by norm_num
  have p6 : (2 : Nat) ^ 6 = 64 := by norm_num
  have p11 : (2 : Nat) ^ 11 = 2048 := by norm_num
  have m5 : (0x1F : Nat) = 2 ^ 5 - 1 := by norm_num
  have m6 : (0x3F : Nat) = 2 ^ 6 - 1 := by norm_num
  have h11 : (x * 2048 + (y * 32 + z)) >>> 11 = x := by
    rw [Nat.shiftRight_eq_div_pow, p11]; omega
  have h5 : (x * 2048 + (y * 32 + z)) >>> 5 = x * 64 + y := by
    rw [Nat.shiftRight_eq_div_pow, p5]; omega
  have hmr : x &&& 0x1F = x := by
    rw [m5, Nat.and_pow_two_sub_one_eq_mod, p5]; omega
  have hmg : (x * 64 + y) &&& 0x3F = y := by
    rw [m6, Nat.and_pow_two_sub_one_eq_mod, p6]; omega
  have hmb : (x * 2048 + (y * 32 + z)) &&& 0x1F = z := by
    rw [m5, Nat.and_pow_two_sub_one_eq_mod, p5]; omega
  have hsl3 : ∀ w : Nat, w <<< 3 = w * 8 := fun w => by
    rw [Nat.shiftLeft_eq, p3]
  have hsl2 : ∀ w : Nat, w <<< 2 = w * 4 := fun w => by
    rw [Nat.shiftLeft_eq, p2]
  have hrep8 : ∀ w : Nat, w < 32 → (w * 8) ||| ((w * 8) >>> 5) = w * 8 + w / 4 := by
    intro w hw
    have hd : (w * 8) >>> 5 = w / 4 := by
      rw [Nat.shiftRight_eq_div_pow, p5]; omega
    rw [hd]
    have hlt : w / 4 < 2 ^ 3 := by rw [p3]; omega
    calc w * 8 ||| w / 4 = w * 2 ^ 3 ||| w / 4 := by rw [p3]
      _ = w * 2 ^ 3 + w / 4 := mul_pow_lor_eq_add w 3 hlt
      _ = w * 8 + w / 4 := by rw [p3]
  have hrep4 : (y * 4) ||| ((y * 4) >>> 6) = y * 4 + y / 16 := by
    have hd : (y * 4) >>> 6 = y / 16 := by
      rw [Nat.shiftRight_eq_div_pow, p6]; omega
    rw [hd]
    have hlt : y / 16 < 2 ^ 2 := by rw [p2]; omega
    calc y * 4 ||| y / 16 = y * 2 ^ 2 ||| y / 16 := by rw [p2]
      _ = y * 2 ^ 2 + y / 16 := mul_pow_lor_eq_add y 2 hlt
      _ = y * 4 + y / 16 := by rw [p2]
  show rgb565_to_rgb _ = _
  unfold rgb565_to_rgb
  simp only [h11, h5, hmr, hmg, hmb, hsl3, hsl2]
  rw [hrep8 x hx, hrep8 z hz, hrep4]

theorem decode_encode (r g b : Nat) (hr : r ≤ 255) (hg : g ≤ 255)
    (hb : b ≤ 255) :
    rgb565_to_rgb (rgb_to_rgb565 r g b) =
      (r / 8 * 8 + r / 8 / 4, g / 4 * 4 + g / 4 / 16, b / 8 * 8 + b / 8 / 4) := by
  rw [rgb_to_rgb565_eq r g b hg hb]
  exact rgb565_to_rgb_decompose (r / 8) (g / 4) (b / 8)
    (by omega) (by omega) (by omega)

/-- C1: for every input triple, the collision-avoiding encoder `rgb565`
never returns the transparent sentinel, and whenever the raw quantization
`rgb_to_rgb565` would equal the sentinel the result is the adjacent value
`0xF81E` instead. -/
theorem c1_encode_never_sentinel (r g b : Nat) :
    rgb565 r g b ≠ TRANSPARENT_RGB565 ∧
    (rgb_to_rgb565 r g b = TRANSPARENT_RGB565 → rgb565 r g b = 0xF81E) := by
  constructor
  · by_cases h : rgb_to_rgb565 r g b = TRANSPARENT_RGB565
    · simp only [rgb565, h, if_pos]
      decide
    · simp only [rgb565, if_neg h]
      exact h
  · intro h
    simp only [rgb565, if_pos h]

theorem c1_encode_never_sentinel_witness :
    rgb_to_rgb565 248 0 248 = TRANSPARENT_RGB565 ∧ rgb565 248 0 248 = 0xF81E :=
  ⟨by decide, (c1_encode_never_sentinel 248 0 248).2 (by decide)⟩

/-- C2 counterexample: the triple (248, 252, 248), each component a
multiple of its quantization step, does not round-trip exactly: the
decoder replicates high bits into the truncated low bits, giving
(255, 255, 255). -/
theorem c2_roundtrip_counterexample :
    rgb565_to_rgb (rgb_to_rgb565 248 252 248) = (255, 255, 255) ∧
    rgb565_to_rgb (rgb_to_rgb565 248 252 248) ≠ (248, 252, 248) := by
  constructor <;> decide

/-- C2 (amended): decode after encode differs from the input by at most 7
in the red and blue channels and at most 3 in the green channel; but the
round trip is not exact at multiples of the quantization step, because the
decoder replicates the high bits of each field into the truncated low bits
(so e.g. (248, 252, 248) decodes to (255, 255, 255)). -/
theorem c2_decode_encode_bounds (r g b : Nat) (hr : r ≤ 255) (hg : g ≤ 255)
    (hb : b ≤ 255) :
    ((rgb565_to_rgb (rgb_to_rgb565 r g b)).1 ≤ r + 7 ∧
      r ≤ (rgb565_to_rgb (rgb_to_rgb565 r g b)).1 + 7) ∧
    ((rgb565_to_rgb (rgb_to_rgb565 r g b)).2.1 ≤ g + 3 ∧
      g ≤ (rgb565_to_rgb (rgb_to_rgb565 r g b)).2.1 + 3) ∧
    ((rgb565_to_rgb (rgb_to_rgb565 r g b)).2.2 ≤ b + 7 ∧
      b ≤ (rgb565_to_rgb (rgb_to_rgb565 r g b)).2.2 + 7) := by
  rw [decode_encode r g b hr hg hb]
  refine ⟨⟨?_, ?_⟩, ⟨?_, ?_⟩, ⟨?_, ?_⟩⟩ <;> simp only [] <;> omega

theorem c2_decode_encode_bounds_witness :
    (rgb565_to_rgb (rgb_to_rgb565 100 100 100)).1 ≤ 100 + 7 ∧
    100 ≤ (rgb565_to_rgb (rgb_to_rgb565 100 100 100)).2.1 + 3 :=
  ⟨(c2_decode_encode_bounds 100 100 100 (by decide) (by decide) (by decide)).1.1,
   (c2_decode_encode_bounds 100 100 100 (by decide) (by decide) (by decide)).2.1.2⟩

/-- C8 counterexample: the encoder has no input validation and no failure
mode: at the out-of-range component r = 256 it silently returns the value
0x10000, which does not even fit in 16 bits, instead of failing with an
InvalidColorComponent condition. -/
theorem c8_no_validation_counterexample :
    rgb_to_rgb565 256 0 0 = 0x10000 ∧ 0x10000 > 0xFFFF := by
  constructor <;> decide

/-- C8 (amended): `rgb_to_rgb565` performs no range validation and never
fails; it is a total function of its arguments. For components within
[0,255] the result always fits in 16 bits, while out-of-range components
silently produce values that may exceed 16 bits rather than an error. -/
theorem c8_encode_total (r g b : Nat) (hr : r ≤ 255) (hg : g ≤ 255)
    (hb : b ≤ 255) :
    rgb_to_rgb565 r g b ≤ 0xFFFF := by
  rw [rgb_to_rgb565_eq r g b hg hb]
  omega

theorem c8_encode_total_witness : rgb_to_rgb565 255 255 255 ≤ 0xFFFF :=
  c8_encode_total 255 255 255 (by decide) (by decide) (by decide)

/-- C3 counterexample: with the color key (255,0,255) supplied, a fully
transparent black pixel (alpha 0, not matching the key) is still emitted
as the transparent sentinel through the alpha branch, not as the RGB565
encoding of black (which is 0). -/
theorem c3_colorkey_alpha_counterexample :
    pixelTo565 (some (255, 0, 255)) (0, 0, 0, 0) = TRANSPARENT_RGB565 ∧
    rgb_to_rgb565 0 0 0 = 0 ∧ TRANSPARENT_RGB565 ≠ 0 :=
  ⟨by decide, by decide, by decide⟩

/-- C3 (amended): a pixel matching the supplied color key becomes the
transparent sentinel; a pixel not matching the key (or with no key
supplied) whose alpha is below 128 also becomes the transparent sentinel,
regardless of whether a color key was supplied; only otherwise is the
pixel RGB565-encoded (with the collision avoidance of `rgb565`). -/
theorem c3_pixel_conversion (transparent_color : Option (Nat × Nat × Nat))
    (r g b a : Nat) :
    (transparent_color = some (r, g, b) →
      pixelTo565 transparent_color (r, g, b, a) = TRANSPARENT_RGB565) ∧
    (keyMatches transparent_color (r, g, b) = false → a < 128 →
      pixelTo565 transparent_color (r, g, b, a) = TRANSPARENT_RGB565) ∧
    (keyMatches transparent_color (r, g, b) = false → 128 ≤ a →
      pixelTo565 transparent_color (r, g, b, a) = rgb565 r g b) := by
  refine ⟨?_, ?_, ?_⟩
  · intro h
    subst h
    simp [pixelTo565, keyMatches]
  · intro hk ha
    simp [pixelTo565, hk, ha]
  · intro hk ha
    have hna : ¬a < 128 := by omega
    simp only [pixelTo565, hk, Bool.false_eq_true, if_false, hna, rgb565]

theorem c3_pixel_conversion_witness :
    pixelTo565 (some (1, 2, 3)) (1, 2, 3, 200) = TRANSPARENT_RGB565 ∧
    pixelTo565 (some (255, 0, 255)) (5, 6, 7, 100) = TRANSPARENT_RGB565 ∧
    pixelTo565 none (5, 6, 7, 128) = rgb565 5 6 7 :=
  ⟨(c3_pixel_conversion (some (1, 2, 3)) 1 2 3 200).1 rfl,
   (c3_pixel_conversion (some (255, 0, 255)) 5 6 7 100).2.1 (by decide) (by decide),
   (c3_pixel_conversion none 5 6 7 128).2.2 (by decide) (by decide)⟩

theorem convert_sprite_none_error (img : Image) (fw fh : Nat)
    (tc : Option (Nat × Nat × Nat))
    (h : img.width / fw = 0 ∨ img.height / fh = 0) :
    convert_sprite img fw fh tc none = .error .emptySheet := by
  simp [convert_sprite, h]

theorem convert_sprite_none_ok (img : Image) (fw fh : Nat)
    (tc : Option (Nat × Nat × Nat))
    (h : ¬(img.width / fw = 0 ∨ img.height / fh = 0)) :
    ∃ frames, convert_sprite img fw fh tc none = .ok frames := by
  simp [convert_sprite, h]

/-- C7 counterexample: in a batch over SPRITE_NAMES where egg_idle.png is
a 1x2 image (smaller than one 2x2 frame) and baby_idle.png is a valid 2x2
image, the whole batch aborts with the EmptySheet exit and produces no
output at all, even though converting baby_idle alone succeeds; the batch
does not continue past the failing sprite. -/
theorem c7_batch_abort_counterexample :
    spritedataCounts demoFs 2 2 none SPRITE_NAMES = .error .emptySheet ∧
    convert_sprite goodImage 2 2 none none = .ok [[2211, 2211, 2211, 2211]] := by
  constructor
  · rfl
  · rfl

/-- C7 (amended): an EmptySheet condition on any present sprite image
aborts the entire batch (the sys.exit propagates and no per-sprite output
survives); only missing image files are skipped, the batch then continuing
with one recorded row per sprite name. -/
theorem c7_emptysheet_aborts_batch (fs : String → Option Image)
    (fw fh : Nat) (tc : Option (Nat × Nat × Nat)) (names : List String) :
    ((∃ n ∈ names, ∃ img, fs n = some img ∧
        (img.width / fw = 0 ∨ img.height / fh = 0)) →
      spritedataCounts fs fw fh tc names = .error .emptySheet) ∧
    ((∀ n ∈ names, ∀ img, fs n = some img →
        ¬(img.width / fw = 0 ∨ img.height / fh = 0)) →
      ∃ counts, spritedataCounts fs fw fh tc names = .ok counts ∧
        counts.map Prod.fst = names) := by
  induction names with
  | nil =>
    refine ⟨fun h => ?_, fun _ => ⟨[], rfl, rfl⟩⟩
    obtain ⟨n, hn, _⟩ := h
    exact absurd hn (List.not_mem_nil n)
  | cons name rest ih =>
    constructor
    · rintro ⟨n, hn, img, himg, hsz⟩
      rcases List.mem_cons.mp hn with heq | hmem
      · subst heq
        simp only [spritedataCounts, himg,
          convert_sprite_none_error img fw fh tc hsz]
      · have hrec := ih.1 ⟨n, hmem, img, himg, hsz⟩
        simp only [spritedataCounts]
        cases hfs : fs name with
        | none =>
          dsimp only
          rw [hrec]
          rfl
        | some img2 =>
          dsimp only
          cases hc : convert_sprite img2 fw fh tc none with
          | error e => cases e; rfl
          | ok frames =>
            rw [hrec]
            rfl
    · intro hall
      have hrest : ∀ n ∈ rest, ∀ img, fs n = some img →
          ¬(img.width / fw = 0 ∨ img.height / fh = 0) :=
        fun n hn => hall n (List.mem_cons_of_mem name hn)
      obtain ⟨counts, hok, hmap⟩ := ih.2 hrest
      cases hfs : fs name with
      | none =>
        refine ⟨(name, 0) :: counts, ?_, ?_⟩
        · simp only [spritedataCounts, hfs, hok, Except.map]
        · simp [hmap]
      | some img =>
        have hsz := hall name (List.mem_cons_self name rest) img hfs
        obtain ⟨frames, hframes⟩ := convert_sprite_none_ok img fw fh tc hsz
        refine ⟨(name, frames.length) :: counts, ?_, ?_⟩
        · simp only [spritedataCounts, hfs, hframes, hok, Except.map]
        · simp [hmap]

theorem c7_emptysheet_aborts_batch_witness :
    spritedataCounts demoFs 2 2 none ["egg_idle"] = .error .emptySheet ∧
    ∃ counts, spritedataCounts demoFs 2 2 none ["sad"] = .ok counts ∧
      counts.map Prod.fst = ["sad"] :=
  ⟨(c7_emptysheet_aborts_batch demoFs 2 2 none ["egg_idle"]).1
      ⟨"egg_idle", List.mem_cons_self _ _, tinyImage, rfl, by decide⟩,
   (c7_emptysheet_aborts_batch demoFs 2 2 none ["sad"]).2
      (by intro n hn img himg
          rcases List.mem_cons.mp hn with heq | hmem
          · subst heq; simp [demoFs] at himg
          · exact absurd hmem (List.not_mem_nil n))⟩

/-- C9: the master table emits exactly one row per SPRITE_NAMES entry, in
enumeration order, and a name with a zero frame count yields the explicit
missing placeholder row instead of being omitted, so every row position
matches the enumeration. -/
theorem c9_master_table_rows (counts : String → Nat)
    (animConfig : String → Nat × Bool) :
    (masterTable counts animConfig).length = SPRITE_NAMES.length ∧
    ∀ (i : Nat) (name : String), SPRITE_NAMES[i]? = some name →
      ∃ row, (masterTable counts animConfig)[i]? = some row ∧
        rowName row = name ∧
        (rowIsMissing row = true ↔ counts name = 0) := by
  constructor
  · simp [masterTable]
  · intro i name hname
    refine ⟨if counts name = 0 then .missing name
      else .entry name (counts name) (animConfig name).1 (animConfig name).2,
      ?_, ?_, ?_⟩
    · simp [masterTable, hname]
    · by_cases h : counts name = 0 <;> simp [h, rowName]
    · by_cases h : counts name = 0 <;> simp [h, rowIsMissing]

theorem c9_master_table_rows_witness :
    ∃ row, (masterTable (fun _ => 0) (fun _ => (500, true)))[0]? = some row ∧
      rowName row = "egg_idle" ∧
      (rowIsMissing row = true ↔ (fun (_ : String) => 0) "egg_idle" = 0) :=
  (c9_master_table_rows (fun _ => 0) (fun _ => (500, true))).2 0 "egg_idle" rfl

/-- C10: when the column count is omitted, or explicitly supplied with
cols at most imageWidth / frameWidth, every getpixel access of the
splitting loop is within the image bounds; the code never validates an
explicit cols against the image width, and for some explicit cols beyond
that bound an out-of-bounds pixel access is reached. -/
theorem c10_split_access_bounds :
    (∀ (imgW imgH fw fh : Nat) (colsOpt : Option Nat),
      0 < fw → 0 < fh →
      (colsOpt = none ∨ ∃ c, colsOpt = some c ∧ c ≤ imgW / fw) →
      ∀ p ∈ accessedCoords imgW imgH fw fh colsOpt,
        p.1 < imgW ∧ p.2 < imgH) ∧
    (∃ imgW imgH fw fh c, imgW / fw < c ∧
      ∃ p ∈ accessedCoords imgW imgH fw fh (some c), imgW ≤ p.1) := by
  constructor
  · intro imgW imgH fw fh colsOpt hfw hfh hcols p hp
    have hcle : colsOpt.getD (imgW / fw) ≤ imgW / fw := by
      rcases hcols with h | ⟨c, hc, hle⟩
      · simp [h]
      · simp [hc, hle]
    simp only [accessedCoords, List.mem_flatMap, List.mem_map,
      List.mem_range] at hp
    obtain ⟨row, hrow, col, hcol, y, hy, x, hx, hpx⟩ := hp
    subst hpx
    constructor
    · show col * fw + x < imgW
      have h1 : col + 1 ≤ imgW / fw := by omega
      have h2 : (col + 1) * fw ≤ imgW / fw * fw :=
        Nat.mul_le_mul_right fw h1
      have h3 : imgW / fw * fw ≤ imgW := Nat.div_mul_le_self imgW fw
      have h4 : col * fw + x < (col + 1) * fw := by
        rw [Nat.succ_mul]; omega
      omega
    · show row * fh + y < imgH
      have h1 : row + 1 ≤ imgH / fh := by omega
      have h2 : (row + 1) * fh ≤ imgH / fh * fh :=
        Nat.mul_le_mul_right fh h1
      have h3 : imgH / fh * fh ≤ imgH := Nat.div_mul_le_self imgH fh
      have h4 : row * fh + y < (row + 1) * fh := by
        rw [Nat.succ_mul]; omega
      omega
  · refine ⟨2, 2, 2, 2, 2, by decide, (2, 0), ?_, by decide⟩
    decide

theorem lookupG_setG (st : List (String × Slots)) (s t : String) (v : Slots) :
    lookupG (setG st s v) t = if s = t then some v else lookupG st t := by
  induction st with
  | nil =>
    by_cases h : s = t <;> simp [setG, lookupG, h]
  | cons kv rest ih =>
    obtain ⟨k, w⟩ := kv
    by_cases hk : k = s
    · subst hk
      by_cases ht : k = t <;> simp [setG, lookupG, ht]
    · by_cases ht : k = t
      · have hst : ¬s = t := fun h2 => hk (ht.trans h2.symm)
        have hts : ¬t = s := fun h2 => hk (ht.trans h2)
        simp [setG, lookupG, hk, ht, hst, hts]
      · simp [setG, lookupG, hk, ht, ih]

theorem lookupG_groupFramesAux (arrays : List (String × List Nat)) :
    ∀ (st : List (String × Slots)) (s : String),
      lookupG (groupFramesAux arrays st) s =
        if entriesFor arrays s = [] then lookupG st s
        else some (applyEntries (entriesFor arrays s) ((lookupG st s).getD [])) := by
  induction arrays with
  | nil =>
    intro st s
    simp [groupFramesAux, entriesFor]
  | cons a rest ih =>
    intro st s
    obtain ⟨n, v⟩ := a
    cases hp : parseFrameName n with
    | none =>
      have he : entriesFor ((n, v) :: rest) s = entriesFor rest s := by
        simp [entriesFor, List.filterMap_cons, hp]
      have hg : groupFramesAux ((n, v) :: rest) st = groupFramesAux rest st := by
        simp [groupFramesAux, hp]
      rw [hg, he]
      exact ih st s
    | some si =>
      obtain ⟨s2, i⟩ := si
      have hg : groupFramesAux ((n, v) :: rest) st =
          groupFramesAux rest (insertFrame st s2 i v) := by
        simp [groupFramesAux, hp]
      rw [hg]
      by_cases hs : s2 = s
      · subst hs
        have he : entriesFor ((n, v) :: rest) s2 =
            (i, v) :: entriesFor rest s2 := by
          simp [entriesFor, List.filterMap_cons, hp]
        have hl : lookupG (insertFrame st s2 i v) s2 =
            some ((growTo ((lookupG st s2).getD []) i).set i (some v)) := by
          simp [insertFrame, lookupG_setG]
        rw [he, ih (insertFrame st s2 i v) s2, hl]
        by_cases hE : entriesFor rest s2 = []
        · simp [hE, applyEntries]
        · simp [hE, applyEntries]
      · have he : entriesFor ((n, v) :: rest) s = entriesFor rest s := by
          simp [entriesFor, List.filterMap_cons, hp, hs]
        have hl : lookupG (insertFrame st s2 i v) s = lookupG st s := by
          simp [insertFrame, lookupG_setG, hs]
        rw [he, ih (insertFrame st s2 i v) s, hl]

theorem foldl_max_init_le (entries : List (Nat × List Nat)) :
    ∀ init : Nat, init ≤ entries.foldl (fun m e => max m (e.1 + 1)) init := by
  induction entries with
  | nil => intro init; simp
  | cons e rest ih =>
    intro init
    calc init ≤ max init (e.1 + 1) := Nat.le_max_left _ _
      _ ≤ rest.foldl (fun m e => max m (e.1 + 1)) (max init (e.1 + 1)) := ih _

theorem applyEntries_length (entries : List (Nat × List Nat)) :
    ∀ sl : Slots, (applyEntries entries sl).length =
      entries.foldl (fun m e => max m (e.1 + 1)) sl.length := by
  induction entries with
  | nil => intro sl; simp [applyEntries]
  | cons e rest ih =>
    intro sl
    obtain ⟨i, v⟩ := e
    show (applyEntries rest ((growTo sl i).set i (some v))).length = _
    rw [ih]
    have hlen : ((growTo sl i).set i (some v)).length = max sl.length (i + 1) := by
      simp [growTo]
      omega
    rw [hlen]
    rfl

theorem length_le_applyEntries (entries : List (Nat × List Nat)) (sl : Slots) :
    sl.length ≤ (applyEntries entries sl).length := by
  rw [applyEntries_length]
  exact foldl_max_init_le entries sl.length

theorem lookup_eq_none_of_not_mem {entries : List (Nat × List Nat)} {j : Nat}
    (h : j ∉ entries.map Prod.fst) : entries.lookup j = none := by
  rw [List.lookup_eq_none_iff]
  intro p hp
  simp only [bne_iff_ne, ne_eq]
  intro hj
  exact h (hj ▸ List.mem_map_of_mem Prod.fst hp)

theorem applyEntries_getElem (entries : List (Nat × List Nat)) :
    ∀ (sl : Slots) (j : Nat), (entries.map Prod.fst).Nodup →
      (applyEntries entries sl)[j]? =
        match entries.lookup j with
        | some v => some (some v)
        | none =>
          if j < sl.length then sl[j]?
          else if j < (applyEntries entries sl).length then some none
          else none := by
  induction entries with
  | nil =>
    intro sl j _
    simp only [applyEntries, List.lookup_nil]
    by_cases h : j < sl.length
    · simp [h]
    · simp [h, List.getElem?_eq_none (by omega : sl.length ≤ j)]
  | cons e rest ih =>
    intro sl j hnd
    obtain ⟨i, v⟩ := e
    have hmap : (List.map Prod.fst ((i, v) :: rest)) = i :: rest.map Prod.fst :=
      rfl
    rw [hmap] at hnd
    obtain ⟨hi_not, hnd2⟩ := List.nodup_cons.mp hnd
    have happly : applyEntries ((i, v) :: rest) sl =
        applyEntries rest ((growTo sl i).set i (some v)) := rfl
    have hg1 : (growTo sl i).length = sl.length + (i + 1 - sl.length) := by
      simp [growTo]
    have hg2 : ((growTo sl i).set i (some v)).length = (growTo sl i).length :=
      List.length_set (growTo sl i) i (some v)
    rw [happly, ih ((growTo sl i).set i (some v)) j hnd2, List.lookup_cons]
    by_cases hji : j = i
    · have hbeq : (j == i) = true := beq_iff_eq.mpr hji
      have hrest : rest.lookup j = none :=
        lookup_eq_none_of_not_mem (hji ▸ hi_not)
      rw [hrest]
      simp only [hbeq]
      have hjlt : j < ((growTo sl i).set i (some v)).length := by omega
      have hget : ((growTo sl i).set i (some v))[j]? = some (some v) := by
        rw [hji, List.getElem?_set_self (by omega)]
      rw [if_pos hjlt, hget]
    · have hbeq : (j == i) = false := beq_eq_false_iff_ne.mpr hji
      simp only [hbeq]
      cases hrest : rest.lookup j with
      | some w => rfl
      | none =>
        have hset : ((growTo sl i).set i (some v))[j]? = (growTo sl i)[j]? :=
          List.getElem?_set_ne (fun h => hji h.symm)
        by_cases hjs : j < sl.length
        · have hjs2 : j < ((growTo sl i).set i (some v)).length := by omega
          rw [if_pos hjs2, if_pos hjs, hset]
          show (sl ++ List.replicate (i + 1 - sl.length) none)[j]? = sl[j]?
          exact List.getElem?_append_left hjs
        · rw [if_neg hjs]
          by_cases hjg : j < ((growTo sl i).set i (some v)).length
          · have hmono := length_le_applyEntries rest ((growTo sl i).set i (some v))
            rw [if_pos hjg, hset, if_pos (by omega)]
            show (sl ++ List.replicate (i + 1 - sl.length) none)[j]? = some none
            rw [List.getElem?_append_right (by omega : sl.length ≤ j)]
            exact List.getElem?_replicate_of_lt (by omega)
          · rw [if_neg hjg]

theorem filterMap_id_eq_range (S : Slots) :
    S.filterMap id = (List.range S.length).filterMap
      (fun j => (S[j]?).getD none) := by
  induction S with
  | nil => rfl
  | cons a T ih =>
    rw [List.length_cons, List.range_succ_eq_map, List.filterMap_cons,
      List.filterMap_cons, List.filterMap_map]
    have htail : List.filterMap ((fun j => ((a :: T)[j]?).getD none) ∘ Nat.succ)
        (List.range T.length) =
        List.filterMap (fun j => (T[j]?).getD none) (List.range T.length) := by
      apply List.filterMap_congr
      intro x _
      simp
    rw [htail, ← ih]
    cases a <;> simp

theorem lookup_map_filterMap (st : List (String × Slots)) (s : String) :
    ((st.map fun e => (e.1, e.2.filterMap id)).lookup s) =
      (lookupG st s).map fun sl => sl.filterMap id := by
  induction st with
  | nil => rfl
  | cons e rest ih =>
    obtain ⟨k, sl⟩ := e
    simp only [List.map_cons, List.lookup_cons, lookupG]
    by_cases h : k = s
    · subst h
      simp
    · have hbeq : (s == k) = false := beq_eq_false_iff_ne.mpr (fun hh => h hh.symm)
      simp [hbeq, h, ih]

/-- C5: group_frames places each matching array at its frame-index slot
and drops the remaining absent markers in place, so each grouped sprite
frame list is exactly the present frames in ascending frame-index order
(frame gaps compact); a sprite with no matching arrays is absent from the
output. -/
theorem c5_gap_compaction (arrays : List (String × List Nat)) (s : String)
    (hnd : ((entriesFor arrays s).map Prod.fst).Nodup) :
    (entriesFor arrays s = [] → (group_frames arrays).lookup s = none) ∧
    (entriesFor arrays s ≠ [] →
      (group_frames arrays).lookup s =
        some ((List.range (slotCount (entriesFor arrays s))).filterMap
          (fun i => (entriesFor arrays s).lookup i))) := by
  have hbridge : (group_frames arrays).lookup s =
      (lookupG (groupFramesAux arrays []) s).map (fun sl => sl.filterMap id) :=
    lookup_map_filterMap _ s
  constructor
  · intro hE
    rw [hbridge, lookupG_groupFramesAux arrays [] s, if_pos hE]
    rfl
  · intro hE
    rw [hbridge, lookupG_groupFramesAux arrays [] s, if_neg hE]
    have hinit : ((lookupG [] s).getD []) = ([] : Slots) := rfl
    rw [hinit]
    simp only [Option.map_some']
    congr 1
    rw [filterMap_id_eq_range (applyEntries (entriesFor arrays s) [])]
    have hlen : (applyEntries (entriesFor arrays s) []).length =
        slotCount (entriesFor arrays s) := by
      rw [applyEntries_length]
      rfl
    rw [hlen]
    apply List.filterMap_congr
    intro j hj
    have hjlt : j < slotCount (entriesFor arrays s) := List.mem_range.mp hj
    rw [applyEntries_getElem (entriesFor arrays s) [] j hnd]
    cases hE2 : (entriesFor arrays s).lookup j with
    | some v => rfl
    | none =>
      simp only [List.length_nil]
      rw [if_neg (by omega), if_pos (by rw [hlen]; omega)]
      rfl

theorem c5_gap_compaction_witness :
    entriesFor demoArrays "a" ≠ [] ∧
    (group_frames demoArrays).lookup "a" =
      some ((List.range (slotCount (entriesFor demoArrays "a"))).filterMap
        (fun i => (entriesFor demoArrays "a").lookup i)) ∧
    (group_frames demoArrays).lookup "a" = some [[2], [1]] :=
  ⟨by decide,
   (c5_gap_compaction demoArrays "a" (by decide)).2 (by decide),
   by decide⟩

/-- C6: two arrays named sprite_egg_idle_frame0 and sprite_egg_idle_frame1
group, in either order of appearance, to the two-frame sequence for sprite
egg_idle with the frame0 data first; the within-sprite order is
independent of textual order. -/
theorem c6_frame_order_independent (d0 d1 : List Nat) :
    (group_frames [("sprite_egg_idle_frame0", d0),
        ("sprite_egg_idle_frame1", d1)]).lookup "egg_idle" = some [d0, d1] ∧
    (group_frames [("sprite_egg_idle_frame1", d1),
        ("sprite_egg_idle_frame0", d0)]).lookup "egg_idle" = some [d0, d1] :=
  ⟨rfl, rfl⟩

/-- C4 counterexample: the value extraction only matches 0x-prefixed
literals, so a decimal literal 12 in the array body is silently skipped:
the array parses to the single value 34 (0x0022), not to the sequence
12, 34 the claim requires. -/
theorem c4_decimal_literals_skipped_counterexample :
    extract_arrays "constexpr uint16_t sprite_a_frame0[2] = \x7b 12, 0x0022 \x7d;" =
      [("sprite_a_frame0", [34])] ∧
    extract_arrays "constexpr uint16_t sprite_a_frame0[2] = \x7b 12, 0x0022 \x7d;" ≠
      [("sprite_a_frame0", [12, 34])] := by
  constructor
  · rfl
  · decide

theorem hexDigitChar_isHexDigit :
    ∀ d : Nat, d < 16 → isHexDigit (hexDigitChar d) = true := by decide

theorem hexDigitChar_isDigit :
    ∀ d : Nat, d < 10 → (hexDigitChar d).isDigit = true := by decide

theorem hexDigitChar_hexVal :
    ∀ d : Nat, d < 16 → hexVal (hexDigitChar d) = d := by decide

theorem hexDigitChar_decVal :
    ∀ d : Nat, d < 10 → (hexDigitChar d).toNat - 48 = d := by decide

theorem hexDigitChar_word :
    ∀ d : Nat, d < 10 → isWordChar (hexDigitChar d) = true := by decide

theorem hexDigitChar_ne_rbrace :
    ∀ d : Nat, d < 16 → (hexDigitChar d != rbrace) = true := by decide

theorem hexToNat_append_singleton (l : List Char) (c : Char) :
    hexToNat (l ++ [c]) = 16 * hexToNat l + hexVal c := by
  simp [hexToNat, List.foldl_append]

theorem decToNat_append_singleton (l : List Char) (c : Char) :
    decToNat (l ++ [c]) = 10 * decToNat l + (c.toNat - 48) := by
  simp [decToNat, List.foldl_append]

theorem toHexF_spec : ∀ (f v : Nat), v < f →
    hexToNat (toHexF f v) = v ∧ toHexF f v ≠ [] ∧
    ∀ c ∈ toHexF f v, ∃ d, d < 16 ∧ c = hexDigitChar d := by
  intro f
  induction f with
  | zero => intro v hv; omega
  | succ f ih =>
    intro v hv
    by_cases h16 : v < 16
    · refine ⟨?_, ?_, ?_⟩
      · simp [toHexF, h16, hexToNat, hexDigitChar_hexVal v h16]
      · simp [toHexF, h16]
      · intro c hc
        simp only [toHexF, if_pos h16, List.mem_singleton] at hc
        exact ⟨v, h16, hc⟩
    · have hdiv : v / 16 < f := by omega
      obtain ⟨ih1, ih2, ih3⟩ := ih (v / 16) hdiv
      refine ⟨?_, ?_, ?_⟩
      · simp only [toHexF, if_neg h16]
        rw [hexToNat_append_singleton, ih1,
          hexDigitChar_hexVal (v % 16) (by omega)]
        omega
      · simp [toHexF, if_neg h16]
      · intro c hc
        simp only [toHexF, if_neg h16, List.mem_append,
          List.mem_singleton] at hc
        rcases hc with hc | hc
        · exact ih3 c hc
        · exact ⟨v % 16, by omega, hc⟩

theorem toDecF_spec : ∀ (f v : Nat), v < f →
    decToNat (toDecF f v) = v ∧ toDecF f v ≠ [] ∧
    ∀ c ∈ toDecF f v, ∃ d, d < 10 ∧ c = hexDigitChar d := by
  intro f
  induction f with
  | zero => intro v hv; omega
  | succ f ih =>
    intro v hv
    by_cases h10 : v < 10
    · refine ⟨?_, ?_, ?_⟩
      · simp [toDecF, h10, decToNat, hexDigitChar_decVal v h10]
      · simp [toDecF, h10]
      · intro c hc
        simp only [toDecF, if_pos h10, List.mem_singleton] at hc
        exact ⟨v, h10, hc⟩
    · have hdiv : v / 10 < f := by omega
      obtain ⟨ih1, ih2, ih3⟩ := ih (v / 10) hdiv
      refine ⟨?_, ?_, ?_⟩
      · simp only [toDecF, if_neg h10]
        rw [decToNat_append_singleton, ih1,
          hexDigitChar_decVal (v % 10) (by omega)]
        omega
      · simp [toDecF, if_neg h10]
      · intro c hc
        simp only [toDecF, if_neg h10, List.mem_append,
          List.mem_singleton] at hc
        rcases hc with hc | hc
        · exact ih3 c hc
        · exact ⟨v % 10, by omega, hc⟩

theorem toHexUpper_spec (v : Nat) :
    hexToNat (toHexUpper v) = v ∧ toHexUpper v ≠ [] ∧
    ∀ c ∈ toHexUpper v, ∃ d, d < 16 ∧ c = hexDigitChar d :=
  toHexF_spec (v + 1) v (by omega)

theorem toDec_spec (v : Nat) :
    decToNat (toDec v) = v ∧ toDec v ≠ [] ∧
    ∀ c ∈ toDec v, ∃ d, d < 10 ∧ c = hexDigitChar d :=
  toDecF_spec (v + 1) v (by omega)

theorem foldl_hex_replicate_zero (k : Nat) :
    List.foldl (fun acc c => 16 * acc + hexVal c) 0
      (List.replicate k '0') = 0 := by
  induction k with
  | zero => rfl
  | succ k ih =>
    rw [List.replicate_succ, List.foldl_cons]
    simpa using ih

theorem format04X_spec (v : Nat) :
    hexToNat (format04X v) = v ∧ format04X v ≠ [] ∧
    ∀ c ∈ format04X v, isHexDigit c = true := by
  obtain ⟨h1, h2, h3⟩ := toHexUpper_spec v
  refine ⟨?_, ?_, ?_⟩
  · show hexToNat (List.replicate _ '0' ++ toHexUpper v) = v
    rw [show hexToNat (List.replicate (4 - (toHexUpper v).length) '0' ++
        toHexUpper v) = List.foldl (fun acc c => 16 * acc + hexVal c)
        (List.foldl (fun acc c => 16 * acc + hexVal c) 0
          (List.replicate (4 - (toHexUpper v).length) '0'))
        (toHexUpper v) from by simp [hexToNat, List.foldl_append]]
    rw [foldl_hex_replicate_zero]
    exact h1
  · simp [format04X, h2]
  · intro c hc
    simp only [format04X, List.mem_append, List.mem_replicate] at hc
    rcases hc with ⟨_, hc⟩ | hc
    · subst hc; decide
    · obtain ⟨d, hd, hcd⟩ := h3 c hc
      subst hcd
      exact hexDigitChar_isHexDigit d hd

theorem scanHexF_congr : ∀ (f : Nat) (cs : List Char) (g : Nat),
    cs.length ≤ f → cs.length ≤ g → scanHexF f cs = scanHexF g cs := by
  intro f
  induction f with
  | zero =>
    intro cs g hf hg
    have hnil : cs = [] := List.length_eq_zero.mp (by omega)
    subst hnil
    cases g <;> rfl
  | succ f ih =>
    intro cs g hf hg
    cases cs with
    | nil => cases g <;> rfl
    | cons c rest =>
      cases g with
      | zero => simp at hg
      | succ g =>
        simp only [scanHexF]
        by_cases hcond : c = '0' ∧ rest.head? = some 'x' ∧
            rest.tail.takeWhile isHexDigit ≠ []
        · rw [if_pos hcond, if_pos hcond]
          have hd : (rest.tail.dropWhile isHexDigit).length ≤ rest.tail.length :=
            (List.dropWhile_sublist isHexDigit).length_le
          have ht : rest.tail.length ≤ rest.length := by
            cases rest <;> simp
          have hlen : (c :: rest).length = rest.length + 1 := rfl
          rw [hlen] at hf hg
          congr 1
          exact ih _ g (by omega) (by omega)
        · rw [if_neg hcond, if_neg hcond]
          have hlen : (c :: rest).length = rest.length + 1 := rfl
          rw [hlen] at hf hg
          exact ih rest g (by omega) (by omega)

theorem scanHex_cons_match (c : Char) (cs : List Char) :
    scanHex (c :: cs) =
      if c = '0' ∧ cs.head? = some 'x' ∧ cs.tail.takeWhile isHexDigit ≠ []
      then hexToNat (cs.tail.takeWhile isHexDigit) ::
        scanHexF cs.length (cs.tail.dropWhile isHexDigit)
      else scanHexF cs.length cs := rfl

theorem scanHex_cons_skip (c : Char) (cs : List Char) (hc : ¬c = '0') :
    scanHex (c :: cs) = scanHex cs := by
  rw [scanHex_cons_match, if_neg (fun h => hc h.1)]
  rfl

theorem scanHex_hexLit (v : Nat) (suffix : List Char)
    (hs : ∀ d, suffix.head? = some d → isHexDigit d = false) :
    scanHex (hexLit v ++ suffix) = v :: scanHex suffix := by
  obtain ⟨hparse, hne, hmem⟩ := format04X_spec v
  have htake : (format04X v ++ suffix).takeWhile isHexDigit = format04X v := by
    rw [List.takeWhile_append_of_pos hmem]
    cases suffix with
    | nil => simp
    | cons d ds =>
      rw [List.takeWhile_cons_of_neg (by simp [hs d rfl])]
      simp
  have hdrop : (format04X v ++ suffix).dropWhile isHexDigit = suffix := by
    rw [List.dropWhile_append_of_pos hmem]
    cases suffix with
    | nil => rfl
    | cons d ds =>
      exact List.dropWhile_cons_of_neg (by simp [hs d rfl])
  have hrw : hexLit v ++ suffix = '0' :: 'x' :: (format04X v ++ suffix) := by
    simp [hexLit]
  rw [hrw, scanHex_cons_match]
  have hcond : ('0' : Char) = '0' ∧
      ('x' :: (format04X v ++ suffix)).head? = some 'x' ∧
      ('x' :: (format04X v ++ suffix)).tail.takeWhile isHexDigit ≠ [] :=
    ⟨rfl, rfl, by simp only [List.tail_cons, htake]; exact hne⟩
  rw [if_pos hcond]
  simp only [List.tail_cons, htake, hdrop, hparse]
  congr 1
  apply scanHexF_congr
  · simp
    omega
  · exact Nat.le_refl _

theorem scanHex_hexRow (ch : List Nat) (suffix : List Char)
    (hs : ∀ d, suffix.head? = some d → isHexDigit d = false) :
    scanHex (hexRow ch ++ suffix) = ch ++ scanHex suffix := by
  induction ch with
  | nil => simp [hexRow]
  | cons v tail ih =>
    cases tail with
    | nil =>
      show scanHex (hexLit v ++ suffix) = [v] ++ scanHex suffix
      rw [scanHex_hexLit v suffix hs]
      rfl
    | cons w r =>
      have hrow : hexRow (v :: w :: r) ++ suffix =
          hexLit v ++ (',' :: ' ' :: (hexRow (w :: r) ++ suffix)) := by
        simp [hexRow]
      rw [hrow, scanHex_hexLit v _ (by intro d hd; simp at hd; subst hd; decide)]
      rw [scanHex_cons_skip ',' _ (by decide), scanHex_cons_skip ' ' _ (by decide)]
      rw [ih]
      rfl

theorem scanHex_rowLines (chs : List (List Nat)) :
    scanHex (rowLines chs ++ ['\n']) = chs.flatten := by
  induction chs with
  | nil =>
    show scanHex ('\n' :: []) = []
    rw [scanHex_cons_skip '\n' [] (by decide)]
    rfl
  | cons ch rest ih =>
    have hrw : rowLines (ch :: rest) ++ ['\n'] =
        '\n' :: ' ' :: ' ' :: ' ' :: ' ' ::
          (hexRow ch ++ (',' :: (rowLines rest ++ ['\n']))) := by
      simp [rowLines]
    rw [hrw]
    rw [scanHex_cons_skip '\n' _ (by decide), scanHex_cons_skip ' ' _ (by decide),
      scanHex_cons_skip ' ' _ (by decide), scanHex_cons_skip ' ' _ (by decide),
      scanHex_cons_skip ' ' _ (by decide)]
    rw [scanHex_hexRow ch _ (by intro d hd; simp at hd; subst hd; decide)]
    rw [scanHex_cons_skip ',' _ (by decide), ih]
    rfl

theorem chunksF_flatten : ∀ (f w : Nat) (l : List Nat), l.length ≤ f →
    0 < w → (chunksF f w l).flatten = l := by
  intro f
  induction f with
  | zero =>
    intro w l h hw
    have hnil : l = [] := List.length_eq_zero.mp (by omega)
    subst hnil
    rfl
  | succ f ih =>
    intro w l h hw
    cases l with
    | nil => rfl
    | cons a t =>
      show ((a :: t).take w :: chunksF f w ((a :: t).drop w)).flatten = a :: t
      have hlen : (a :: t).length = t.length + 1 := rfl
      rw [hlen] at h
      rw [List.flatten_cons,
        ih w ((a :: t).drop w) (by rw [List.length_drop, hlen]; omega) hw,
        List.take_append_drop]

theorem chunks_flatten (w : Nat) (l : List Nat) (hw : 0 < w) :
    (chunks w l).flatten = l :=
  chunksF_flatten l.length w l (Nat.le_refl _) hw

theorem eatLit_append (lit rest : List Char) :
    eatLit lit (lit ++ rest) = some rest := by
  induction lit with
  | nil => rfl
  | cons l ls ih => simp [eatLit, ih]

theorem eatLit_one (c : Char) (rest : List Char) :
    eatLit [c] (c :: rest) = some rest := by
  simp [eatLit]

theorem matchDecl_concrete_prefix (X : List Char) :
    matchDecl ("constexpr".data ++ ' ' :: ("uint16_t".data ++ ' ' ::
      ("sprite_".data ++ X))) = matchDeclAfterName X := rfl

theorem matchDeclAfterName_eval (wsName digitsA body rest2 : List Char)
    (hws : ∀ c ∈ wsName, isWordChar c = true) (hwsne : wsName ≠ [])
    (hds : ∀ c ∈ digitsA, c.isDigit = true) (hdsne : digitsA ≠ [])
    (hbody : ∀ c ∈ body, (c != rbrace) = true) (hbne : body ≠ []) :
    matchDeclAfterName (wsName ++ '[' :: (digitsA ++ ']' :: ' ' :: '=' :: ' ' ::
        lbrace :: (body ++ rbrace :: ';' :: rest2))) =
      some (("sprite_".data ++ wsName, body), rest2) := by
  have htake1 : (wsName ++ '[' :: (digitsA ++ ']' :: ' ' :: '=' :: ' ' ::
      lbrace :: (body ++ rbrace :: ';' :: rest2))).takeWhile isWordChar =
      wsName := by
    rw [List.takeWhile_append_of_pos hws,
      List.takeWhile_cons_of_neg (by decide)]
    simp
  have hdrop1 : (wsName ++ '[' :: (digitsA ++ ']' :: ' ' :: '=' :: ' ' ::
      lbrace :: (body ++ rbrace :: ';' :: rest2))).dropWhile isWordChar =
      '[' :: (digitsA ++ ']' :: ' ' :: '=' :: ' ' ::
        lbrace :: (body ++ rbrace :: ';' :: rest2)) := by
    rw [List.dropWhile_append_of_pos hws,
      List.dropWhile_cons_of_neg (by decide)]
  have hsp1 : ('[' :: (digitsA ++ ']' :: ' ' :: '=' :: ' ' ::
      lbrace :: (body ++ rbrace :: ';' :: rest2))).dropWhile isPySpace =
      '[' :: (digitsA ++ ']' :: ' ' :: '=' :: ' ' ::
        lbrace :: (body ++ rbrace :: ';' :: rest2)) :=
    List.dropWhile_cons_of_neg (by decide)
  have htake2 : (digitsA ++ ']' :: ' ' :: '=' :: ' ' ::
      lbrace :: (body ++ rbrace :: ';' :: rest2)).takeWhile Char.isDigit =
      digitsA := by
    rw [List.takeWhile_append_of_pos hds,
      List.takeWhile_cons_of_neg (by decide)]
    simp
  have hdrop2 : (digitsA ++ ']' :: ' ' :: '=' :: ' ' ::
      lbrace :: (body ++ rbrace :: ';' :: rest2)).dropWhile Char.isDigit =
      ']' :: ' ' :: '=' :: ' ' :: lbrace :: (body ++ rbrace :: ';' :: rest2) := by
    rw [List.dropWhile_append_of_pos hds,
      List.dropWhile_cons_of_neg (by decide)]
  have hsp2 : (' ' :: '=' :: ' ' :: lbrace ::
      (body ++ rbrace :: ';' :: rest2)).dropWhile isPySpace =
      '=' :: ' ' :: lbrace :: (body ++ rbrace :: ';' :: rest2) := by
    rw [List.dropWhile_cons_of_pos (by decide),
      List.dropWhile_cons_of_neg (by decide)]
  have hsp3 : (' ' :: lbrace :: (body ++ rbrace :: ';' :: rest2)).dropWhile
      isPySpace = lbrace :: (body ++ rbrace :: ';' :: rest2) := by
    rw [List.dropWhile_cons_of_pos (by decide),
      List.dropWhile_cons_of_neg (by decide)]
  have htake3 : (body ++ rbrace :: ';' :: rest2).takeWhile (· != rbrace) =
      body := by
    rw [List.takeWhile_append_of_pos hbody,
      List.takeWhile_cons_of_neg (by simp)]
    simp
  have hdrop3 : (body ++ rbrace :: ';' :: rest2).dropWhile (· != rbrace) =
      rbrace :: ';' :: rest2 := by
    rw [List.dropWhile_append_of_pos hbody,
      List.dropWhile_cons_of_neg (by simp)]
  have hsp4 : (';' :: rest2).dropWhile isPySpace = ';' :: rest2 :=
    List.dropWhile_cons_of_neg (by decide)
  simp only [matchDeclAfterName, htake1, hdrop1, hsp1, if_neg hwsne,
    eatLit_one, Option.some_bind, htake2, if_neg hdsne, hdrop2, hsp2, hsp3,
    htake3, if_neg hbne, hdrop3, hsp4]

theorem extractGoF_succ_match (f : Nat) (c : Char) (rest : List Char)
    (acc : List (String × List Nat)) (nm body : List Char)
    (h : matchDecl (c :: rest) = some ((nm, body), [])) :
    extractGoF (f + 1) (c :: rest) acc =
      dictInsert acc (String.mk nm) (scanHex body) := by
  simp only [extractGoF, h]
  cases f <;> rfl

theorem extract_arrays_single (T : String) (nm body : List Char)
    (h : matchDecl T.data = some ((nm, body), [])) (hne : T.data ≠ []) :
    extract_arrays T = [(String.mk nm, scanHex body)] := by
  cases hT : T.data with
  | nil => exact absurd hT hne
  | cons c rest =>
    show extractGoF T.data.length T.data [] = _
    rw [hT] at h ⊢
    rw [show (c :: rest).length = rest.length + 1 from rfl,
      extractGoF_succ_match rest.length c rest [] nm body h]
    rfl

theorem format04X_ne_rbrace (v : Nat) :
    ∀ c ∈ format04X v, (c != rbrace) = true := by
  intro c hc
  simp only [format04X, List.mem_append, List.mem_replicate] at hc
  rcases hc with ⟨_, hc⟩ | hc
  · subst hc; decide
  · obtain ⟨d, hd, hcd⟩ := (toHexUpper_spec v).2.2 c hc
    subst hcd
    exact hexDigitChar_ne_rbrace d hd

theorem hexLit_ne_rbrace (v : Nat) :
    ∀ c ∈ hexLit v, (c != rbrace) = true := by
  intro c hc
  simp only [hexLit, List.mem_cons] at hc
  rcases hc with hc | hc | hc
  · subst hc; decide
  · subst hc; decide
  · exact format04X_ne_rbrace v c hc

theorem hexRow_ne_rbrace (ch : List Nat) :
    ∀ c ∈ hexRow ch, (c != rbrace) = true := by
  induction ch with
  | nil => intro c hc; simp [hexRow] at hc
  | cons v tail ih =>
    cases tail with
    | nil =>
      intro c hc
      exact hexLit_ne_rbrace v c hc
    | cons w r =>
      intro c hc
      simp only [hexRow, List.mem_append, List.mem_cons] at hc
      rcases hc with hc | hc | hc | hc
      · exact hexLit_ne_rbrace v c hc
      · subst hc; decide
      · subst hc; decide
      · exact ih c hc

theorem rowLines_ne_rbrace (chs : List (List Nat)) :
    ∀ c ∈ rowLines chs, (c != rbrace) = true := by
  induction chs with
  | nil => intro c hc; simp [rowLines] at hc
  | cons ch rest ih =>
    intro c hc
    simp only [rowLines, List.mem_cons, List.mem_append] at hc
    rcases hc with hc | hc | hc | hc | hc | hc | hc
    · subst hc; decide
    · subst hc; decide
    · subst hc; decide
    · subst hc; decide
    · subst hc; decide
    · exact hexRow_ne_rbrace ch c hc
    · rcases hc with hc | hc
      · subst hc; decide
      · exact ih c hc

theorem header_decomp (X : List Char) :
    "constexpr uint16_t sprite_".data ++ X =
      "constexpr".data ++ ' ' :: ("uint16_t".data ++ ' ' ::
        ("sprite_".data ++ X)) := by
  rw [show "constexpr uint16_t sprite_".data =
    "constexpr".data ++ ' ' :: ("uint16_t".data ++ ' ' :: "sprite_".data)
    from by decide]
  simp [List.append_assoc]

theorem matchDecl_format (name : String) (frame_idx : Nat) (data : List Nat)
    (width : Nat) (hname : ∀ c ∈ name.data, isWordChar c = true) :
    matchDecl (format_array name frame_idx data width).data =
      some ((("sprite_".data ++ (name.data ++
          ("_frame".data ++ toDec frame_idx))),
        rowLines (chunks width data) ++ ['\n']), []) := by
  have hws : ∀ c ∈ name.data ++ ("_frame".data ++ toDec frame_idx),
      isWordChar c = true := by
    intro c hc
    simp only [List.mem_append] at hc
    rcases hc with hc | hc | hc
    · exact hname c hc
    · revert c
      decide
    · obtain ⟨d, hd, hcd⟩ := (toDec_spec frame_idx).2.2 c hc
      subst hcd
      exact hexDigitChar_word d hd
  have hwsne : name.data ++ ("_frame".data ++ toDec frame_idx) ≠ [] :=
    List.append_ne_nil_of_right_ne_nil _
      (List.append_ne_nil_of_left_ne_nil (by decide) _)
  have hds : ∀ c ∈ toDec data.length, c.isDigit = true := by
    intro c hc
    obtain ⟨d, hd, hcd⟩ := (toDec_spec data.length).2.2 c hc
    subst hcd
    exact hexDigitChar_isDigit d hd
  have hdsne : toDec data.length ≠ [] := (toDec_spec data.length).2.1
  have hbody : ∀ c ∈ rowLines (chunks width data) ++ ['\n'],
      (c != rbrace) = true := by
    intro c hc
    simp only [List.mem_append, List.mem_singleton] at hc
    rcases hc with hc | hc
    · exact rowLines_ne_rbrace _ c hc
    · subst hc; decide
  have hbne : rowLines (chunks width data) ++ ['\n'] ≠ [] :=
    List.append_ne_nil_of_right_ne_nil _ (by decide)
  have hdata : (format_array name frame_idx data width).data =
      "constexpr uint16_t sprite_".data ++ (name.data ++ ("_frame".data ++
        (toDec frame_idx ++ ('[' :: (toDec data.length ++ ("] = ".data ++
          lbrace :: (rowLines (chunks width data) ++
            '\n' :: rbrace :: [';']))))))) := rfl
  have hshape : name.data ++ ("_frame".data ++ (toDec frame_idx ++ ('[' ::
      (toDec data.length ++ ("] = ".data ++ lbrace ::
        (rowLines (chunks width data) ++ '\n' :: rbrace :: [';'])))))) =
      (name.data ++ ("_frame".data ++ toDec frame_idx)) ++ '[' ::
        (toDec data.length ++ ']' :: ' ' :: '=' :: ' ' :: lbrace ::
          ((rowLines (chunks width data) ++ ['\n']) ++
            rbrace :: ';' :: ([] : List Char))) := by
    rw [show "] = ".data = ']' :: ' ' :: '=' :: [' '] from by decide]
    simp [List.append_assoc]
  rw [hdata, header_decomp, matchDecl_concrete_prefix, hshape]
  exact matchDeclAfterName_eval _ _ _ _ hws hwsne hds hdsne hbody hbne

theorem format_array_data_ne_nil (name : String) (frame_idx : Nat)
    (data : List Nat) (width : Nat) :
    (format_array name frame_idx data width).data ≠ [] := by
  show "constexpr uint16_t sprite_".data ++ _ ≠ []
  exact List.append_ne_nil_of_left_ne_nil (by decide) _

/-- C4 (amended): for each matched literal-array declaration, the
extraction recovers exactly the ordered sequence of its 0x-prefixed
hexadecimal literals; decimal literals are not extracted. Formally: the
extraction of a rendered format_array declaration recovers the full array
name and exactly the original data values in order, and two declarations
are extracted in first-to-last textual order. -/
theorem c4_hex_extraction (name : String) (frame_idx : Nat) (data : List Nat)
    (width : Nat) (hname : ∀ c ∈ name.data, isWordChar c = true)
    (hw : 0 < width) :
    extract_arrays (format_array name frame_idx data width) =
      [(String.mk ("sprite_".data ++ (name.data ++
        ("_frame".data ++ toDec frame_idx))), data)] ∧
    extract_arrays "constexpr uint16_t sprite_b_frame0[1] = \x7b 0x0001 \x7d;\nconstexpr uint16_t sprite_c_frame0[1] = \x7b 0x0002 \x7d;" =
      [("sprite_b_frame0", [1]), ("sprite_c_frame0", [2])] := by
  constructor
  · rw [extract_arrays_single (format_array name frame_idx data width) _ _
      (matchDecl_format name frame_idx data width hname)
      (format_array_data_ne_nil name frame_idx data width)]
    rw [scanHex_rowLines, chunks_flatten width data hw]
  · rfl

theorem c4_hex_extraction_witness :
    extract_arrays (format_array "egg" 0 [1, 2, 3, 4] 2) =
      [(String.mk ("sprite_".data ++ ("egg".data ++
        ("_frame".data ++ toDec 0))), [1, 2, 3, 4])] :=
  (c4_hex_extraction "egg" 0 [1, 2, 3, 4] 2 (by decide) (by decide)).1

theorem c10_split_access_bounds_witness :
    (0, 0) ∈ accessedCoords 2 2 1 1 none →
      ((0, 0) : Nat × Nat).1 < 2 ∧ ((0, 0) : Nat × Nat).2 < 2 :=
  c10_split_access_bounds.1 2 2 1 1 none (by decide) (by decide)
    (Or.inl rfl) (0, 0)

end SpriteTools
